import Mathlib

set_option maxHeartbeats 1000000

/-
Shallow embedding of `src/ext/polyphony/backend_io_uring_context.c`.

The C code manages `op_context_t` records linked into two intrusive doubly
linked lists (`available` and `taken`) rooted in an `op_context_store_t`.
We model the heap as an arena (`List OpCtx`): a pointer is an index into the
arena (`Option Nat`, `none` being `NULL`), `malloc` appends a fresh record at
the end of the arena, and a field write is a functional update at one index.
Each Lean operation mirrors its C function statement by statement, reads and
writes in the same order.
-/

namespace PolyphonyCtx

/-- Modelled from the spec: a Ruby `VALUE` (from `ruby.h`, which is not part
of the sources). We only need `Qnil` (the "no value" default stored into
`resume_value`) and opaque non-nil values (fibers, resume values). -/
inductive VALUE where
  | qnil : VALUE
  | obj : Nat → VALUE
deriving DecidableEq, Repr

/-- Modelled from the spec: the record type `op_context_t` is declared in
`backend_io_uring_context.h`, which is not among the sources; its fields and
their use are visible in `backend_io_uring_context.c` (`id`, `type`, `fiber`,
`resume_value`, `completed`, `result`, `prev`, `next`) and described in §3 of
the spec.  `prev`/`next` are arena indices (`none` = `NULL`). -/
structure OpCtx where
  id : Nat
  type : Nat
  fiber : VALUE
  resume_value : VALUE
  completed : Nat
  result : Int
  prev : Option Nat
  next : Option Nat
deriving DecidableEq, Repr

instance : Inhabited OpCtx :=
  ⟨⟨0, 0, VALUE.qnil, VALUE.qnil, 0, 0, none, none⟩⟩

/-- Modelled from the spec: `op_context_store_t` (declared in the header,
used throughout the `.c` file): `last_id` counter and the two list heads.
The `arena` component is our model of the C heap holding the records. -/
structure Store where
  arena : List OpCtx
  last_id : Nat
  available : Option Nat
  taken : Option Nat
deriving DecidableEq, Repr

/-- Dereference an arena pointer (`ctx->field` reads go through this). An
out-of-range index would be undefined behavior in C; here it yields the
default record. -/
def getCtx (a : List OpCtx) (i : Nat) : OpCtx :=
  (a[i]?).getD default

/-- Write through an arena pointer: replace record `i` by `f` of it.
Out of range, it is a no-op (C would be undefined behavior). -/
def updCtx (a : List OpCtx) (i : Nat) (f : OpCtx → OpCtx) : List OpCtx :=
  a.set i (f (getCtx a i))

/-- Modelled from the spec: `enum op_type` is declared in the header (not in
the sources). A C enum is an integer type; the nine variants get the default
consecutive values starting at 0. -/
def OP_READ : Nat := 0

/-- Second enum variant, `OP_WRITEV`. -/
def OP_WRITEV : Nat := 1

/-- Third enum variant, `OP_WRITE`. -/
def OP_WRITE : Nat := 2

/-- Fourth enum variant, `OP_RECV`. -/
def OP_RECV : Nat := 3

/-- Fifth enum variant, `OP_SEND`. -/
def OP_SEND : Nat := 4

/-- Sixth enum variant, `OP_TIMEOUT`. -/
def OP_TIMEOUT : Nat := 5

/-- Seventh enum variant, `OP_POLL`. -/
def OP_POLL : Nat := 6

/-- Eighth enum variant, `OP_ACCEPT`. -/
def OP_ACCEPT : Nat := 7

/-- Ninth enum variant, `OP_CONNECT`. -/
def OP_CONNECT : Nat := 8

/-- `op_type_to_str`: the switch over the operation kind, with the
`default: return "";` branch for every other value. -/
def op_type_to_str (t : Nat) : String :=
  if t = OP_READ then "READ"
  else if t = OP_WRITEV then "WRITEV"
  else if t = OP_WRITE then "WRITE"
  else if t = OP_RECV then "RECV"
  else if t = OP_SEND then "SEND"
  else if t = OP_TIMEOUT then "TIMEOUT"
  else if t = OP_POLL then "POLL"
  else if t = OP_ACCEPT then "ACCEPT"
  else if t = OP_CONNECT then "CONNECT"
  else ""

/-- `context_store_initialize`: resets the three store fields. The arena (our
model of the heap) is untouched, exactly as the C function touches only the
`op_context_store_t` struct. -/
def context_store_initialize (s : Store) : Store :=
  { s with last_id := 0, available := none, taken := none }

/-- Tail of `context_store_acquire` after `ctx` has been chosen (popped from
the free list, or freshly allocated): assign the id, push onto the head of
`taken`, set the payload fields. `fb` is the value `rb_fiber_current()`
returned (the currently running fiber, an input of the model). -/
def acquireRest (s : Store) (c : Nat) (ty : Nat) (fb : VALUE) : Store × Nat :=
  -- ctx->id = (++store->last_id);
  let lastId := s.last_id + 1
  -- ctx->prev = NULL; ctx->next = store->taken;
  let a2 := updCtx s.arena c
    (fun r => { r with id := lastId, prev := none, next := s.taken })
  -- if (store->taken) store->taken->prev = ctx;
  let a3 := match s.taken with
    | some t => updCtx a2 t (fun r => { r with prev := some c })
    | none => a2
  -- store->taken = ctx; ctx->type = type; ctx->fiber = rb_fiber_current();
  -- ctx->resume_value = Qnil; ctx->completed = 0; ctx->result = 0;
  let a4 := updCtx a3 c (fun r =>
    { r with type := ty, fiber := fb, resume_value := VALUE.qnil,
             completed := 0, result := 0 })
  ({ arena := a4, last_id := lastId, available := s.available,
     taken := some c }, c)

/-- `context_store_acquire`: pop the head of the free list if non-empty
(fixing the new head's back-link), otherwise `malloc` a fresh record (append
to the arena); then `acquireRest`. Returns the new store and the acquired
record's index. -/
def context_store_acquire (s : Store) (ty : Nat) (fb : VALUE) : Store × Nat :=
  match s.available with
  | some c =>
    -- if (ctx->next) ctx->next->prev = NULL;
    let a1 := match (getCtx s.arena c).next with
      | some n => updCtx s.arena n (fun r => { r with prev := none })
      | none => s.arena
    -- store->available = ctx->next;
    let s1 : Store := { s with arena := a1, available := (getCtx a1 c).next }
    acquireRest s1 c ty fb
  | none =>
    -- ctx = malloc(sizeof(op_context_t));
    let c := s.arena.length
    let s1 : Store := { s with arena := s.arena ++ [default] }
    acquireRest s1 c ty fb

/-- First statement of `context_store_release`:
`if (ctx->next) ctx->next->prev = ctx->prev;`. -/
def relFixNext (c : Nat) (a : List OpCtx) : List OpCtx :=
  match (getCtx a c).next with
  | some n => updCtx a n (fun r => { r with prev := (getCtx a c).prev })
  | none => a

/-- Second statement of `context_store_release`:
`if (ctx->prev) ctx->prev->next = ctx->next;`. -/
def relFixPrev (c : Nat) (a : List OpCtx) : List OpCtx :=
  match (getCtx a c).prev with
  | some p => updCtx a p (fun r => { r with next := (getCtx a c).next })
  | none => a

/-- Statements `ctx->prev = NULL; ctx->next = store->available;` of
`context_store_release` (with `av` the current free-list head). -/
def relPush (c : Nat) (av : Option Nat) (a : List OpCtx) : List OpCtx :=
  updCtx a c (fun r => { r with prev := none, next := av })

/-- Statement `if (ctx->next) ctx->next->prev = ctx;` of
`context_store_release`. -/
def relFixAvailHead (c : Nat) (a : List OpCtx) : List OpCtx :=
  match (getCtx a c).next with
  | some m => updCtx a m (fun r => { r with prev := some c })
  | none => a

/-- `context_store_release`: unlink `c` from whatever list it is on (patch
the neighbors, advance `taken` if `c` was its head), then push it onto the
head of the free list. Composition of the step functions above in the C
statement order; every read is performed on the arena as it stands at that
point. -/
def context_store_release (s : Store) (c : Nat) : Store :=
  let a2 := relFixPrev c (relFixNext c s.arena)
  -- if (store->taken == ctx) store->taken = ctx->next;
  let tk := if s.taken = some c then (getCtx a2 c).next else s.taken
  let a4 := relFixAvailHead c (relPush c s.available a2)
  -- store->available = ctx;
  { s with arena := a4, available := some c, taken := tk }

/-- One `while` loop of `context_store_free`: follow `next` from the head
until `NULL`, freeing each record. The loop count is bounded by the arena
size (on a well-formed store the chain is shorter); the result is the head
pointer when the loop stops. -/
def freeLoopHead (a : List OpCtx) : Nat → Option Nat → Option Nat
  | 0, h => h
  | _ + 1, none => none
  | fuel + 1, some i => freeLoopHead a fuel (getCtx a i).next

/-- `context_store_free` (teardown): walk both lists, freeing every record,
leaving each head at the point its loop stopped (`NULL` when the chain is
well formed). -/
def context_store_free (s : Store) : Store :=
  { s with available := freeLoopHead s.arena s.arena.length s.available,
           taken := freeLoopHead s.arena s.arena.length s.taken }

/-- The list of arena indices reached by following `next` from a head
pointer, cut off by fuel. -/
def chainList (a : List OpCtx) : Nat → Option Nat → List Nat
  | 0, _ => []
  | _ + 1, none => []
  | fuel + 1, some i => i :: chainList a fuel (getCtx a i).next

/-- The indices on the active (`taken`) list, in list order from the head. -/
def activeChain (s : Store) : List Nat :=
  chainList s.arena s.arena.length s.taken

/-- The indices on the free (`available`) list, in list order from the head. -/
def freeChain (s : Store) : List Nat :=
  chainList s.arena s.arena.length s.available

/-- Chain segment predicate: starting at head pointer `h`, the indices `l`
form a consecutive doubly linked segment whose first record's `prev` is `pv`,
each later record's `prev` pointing at its predecessor, and the last record's
`next` being `nx` (for a whole list: `pv = none`, `nx = none`). -/
def seg (a : List OpCtx) : Option Nat → Option Nat → List Nat → Option Nat → Prop
  | _, h, [], nx => h = nx
  | pv, h, i :: rest, nx =>
      h = some i ∧ i < a.length ∧ (getCtx a i).prev = pv ∧
        seg a (some i) (getCtx a i).next rest nx

instance segDecidable (a : List OpCtx) :
    (l : List Nat) → (pv h nx : Option Nat) → Decidable (seg a pv h l nx)
  | [], _, h, nx => decidable_of_iff (h = nx) (by simp [seg])
  | i :: rest, pv, h, nx =>
      haveI := segDecidable a rest (some i) (getCtx a i).next nx
      decidable_of_iff (h = some i ∧ i < a.length ∧ (getCtx a i).prev = pv ∧
        seg a (some i) (getCtx a i).next rest nx) (by simp [seg])

/-- Well-formedness of a store relative to ghost index lists `act` and `fre`:
both lists are correctly doubly linked chains, node-disjoint and duplicate
free, and together they carry every record of the arena. -/
def WFl (s : Store) (act fre : List Nat) : Prop :=
  seg s.arena none s.taken act none ∧
  seg s.arena none s.available fre none ∧
  (act ++ fre).Nodup ∧
  ∀ i < s.arena.length, i ∈ act ++ fre

instance (s : Store) (act fre : List Nat) : Decidable (WFl s act fre) :=
  decidable_of_iff (seg s.arena none s.taken act none ∧
    seg s.arena none s.available fre none ∧
    (act ++ fre).Nodup ∧ ∀ i < s.arena.length, i ∈ act ++ fre)
    (by rw [WFl])

/-- A store is well formed when some ghost lists witness `WFl`. -/
def Inv (s : Store) : Prop := ∃ act fre, WFl s act fre

/-- The id stored in record `i` of store `s`. -/
def idOf (s : Store) (i : Nat) : Nat := (getCtx s.arena i).id

/-- The ids along `l` are strictly decreasing. -/
def sortedIds (s : Store) (l : List Nat) : Prop :=
  (l.map (idOf s)).Pairwise (fun x y => y < x)

/-- Every record's id is at most `last_id`. -/
def idsBounded (s : Store) : Prop :=
  ∀ i < s.arena.length, idOf s i ≤ s.last_id

/-- An operation on the store: an acquire (with the kind and the value of
`rb_fiber_current()` at that moment) or a release of a record index. -/
inductive Op where
  | acq : Nat → VALUE → Op
  | rel : Nat → Op
deriving DecidableEq, Repr

/-- Run a list of operations, collecting the ids returned by the acquires. -/
def runTrace : Store → List Op → Store × List Nat
  | s, [] => (s, [])
  | s, Op.acq ty fb :: ops =>
      let r := context_store_acquire s ty fb
      let rest := runTrace r.1 ops
      (rest.1, (getCtx r.1.arena r.2).id :: rest.2)
  | s, Op.rel j :: ops => runTrace (context_store_release s j) ops

/-- The store after running a list of operations. -/
def run (s : Store) (ops : List Op) : Store := (runTrace s ops).1

/-- Caller preconditions along a run: each release targets a record that is
on the active list at that point (the spec's §7 protocol). -/
def validOps : Store → List Op → Prop
  | _, [] => True
  | s, Op.acq ty fb :: ops => validOps (context_store_acquire s ty fb).1 ops
  | s, Op.rel j :: ops =>
      j ∈ activeChain s ∧ validOps (context_store_release s j) ops

instance validOpsDecidable :
    (ops : List Op) → (s : Store) → Decidable (validOps s ops)
  | [], _ => decidable_of_iff True (by simp [validOps])
  | Op.acq ty fb :: ops, s =>
      haveI := validOpsDecidable ops (context_store_acquire s ty fb).1
      decidable_of_iff (validOps (context_store_acquire s ty fb).1 ops)
        (by simp [validOps])
  | Op.rel j :: ops, s =>
      haveI := validOpsDecidable ops (context_store_release s j)
      decidable_of_iff
        (j ∈ activeChain s ∧ validOps (context_store_release s j) ops)
        (by simp [validOps])

/-- The freshly initialized store: empty heap, `last_id = 0`, both lists
empty (the state `context_store_initialize` establishes on a fresh store). -/
def initStore : Store :=
  { arena := [], last_id := 0, available := none, taken := none }

/-! Basic arena lemmas. -/

theorem length_updCtx (a : List OpCtx) (i : Nat) (f : OpCtx → OpCtx) :
    (updCtx a i f).length = a.length := by
  simp [updCtx]

theorem getCtx_updCtx_ne (a : List OpCtx) (i j : Nat) (f : OpCtx → OpCtx)
    (h : j ≠ i) : getCtx (updCtx a i f) j = getCtx a j := by
  simp [getCtx, updCtx, List.getElem?_set_ne (Ne.symm h)]

theorem getCtx_updCtx_self (a : List OpCtx) (i : Nat) (f : OpCtx → OpCtx)
    (h : i < a.length) : getCtx (updCtx a i f) i = f (getCtx a i) := by
  simp [getCtx, updCtx, List.getElem?_set_self, h]

theorem updCtx_out (a : List OpCtx) (i : Nat) (f : OpCtx → OpCtx)
    (h : a.length ≤ i) : updCtx a i f = a := by
  simp [updCtx, List.set_eq_of_length_le h]

theorem getCtx_append_lt (a : List OpCtx) (x : OpCtx) (i : Nat)
    (h : i < a.length) : getCtx (a ++ [x]) i = getCtx a i := by
  simp [getCtx, List.getElem?_append, h]

theorem getCtx_append_self (a : List OpCtx) (x : OpCtx) :
    getCtx (a ++ [x]) a.length = x := by
  simp [getCtx]

theorem getCtx_ge (a : List OpCtx) (i : Nat) (h : a.length ≤ i) :
    getCtx a i = default := by
  simp [getCtx, List.getElem?_eq_none h]

/-! Chain segment lemmas. -/

theorem seg_mem_lt {a : List OpCtx} :
    ∀ {l : List Nat} {pv h nx : Option Nat}, seg a pv h l nx →
      ∀ i ∈ l, i < a.length := by
  intro l
  induction l with
  | nil => intro pv h nx _ i hi; simp at hi
  | cons j rest ih =>
      intro pv h nx hs i hi
      rw [seg] at hs
      rcases List.mem_cons.mp hi with rfl | hi
      · exact hs.2.1
      · exact ih hs.2.2.2 i hi

theorem seg_congr {a a' : List OpCtx} (hlen : a'.length = a.length)
    (hget : ∀ i ∈ l, getCtx a' i = getCtx a i) :
    ∀ {pv h nx : Option Nat}, seg a pv h l nx → seg a' pv h l nx := by
  induction l with
  | nil => intro pv h nx hs; rw [seg] at hs ⊢; exact hs
  | cons j rest ih =>
      intro pv h nx hs
      rw [seg] at hs ⊢
      have hj : getCtx a' j = getCtx a j := hget j (by simp)
      refine ⟨hs.1, by rw [hlen]; exact hs.2.1, by rw [hj]; exact hs.2.2.1, ?_⟩
      rw [hj]
      exact ih (fun i hi => hget i (by simp [hi])) hs.2.2.2

theorem seg_updCtx_not_mem {a : List OpCtx} {j : Nat} {f : OpCtx → OpCtx}
    {l : List Nat} {pv h nx : Option Nat} (hj : j ∉ l) (hs : seg a pv h l nx) :
    seg (updCtx a j f) pv h l nx := by
  refine seg_congr (length_updCtx a j f) ?_ hs
  intro i hi
  exact getCtx_updCtx_ne a j i f (fun e => hj (e ▸ hi))

theorem seg_append_one {a : List OpCtx} {x : OpCtx} {l : List Nat}
    {pv h nx : Option Nat} (hs : seg a pv h l nx) : seg (a ++ [x]) pv h l nx := by
  induction l generalizing pv h with
  | nil => rw [seg] at hs ⊢; exact hs
  | cons j rest ih =>
      rw [seg] at hs ⊢
      have hjl : j < a.length := hs.2.1
      have hj : getCtx (a ++ [x]) j = getCtx a j := getCtx_append_lt a x j hjl
      exact ⟨hs.1, by simpa using Nat.lt_succ_of_lt hjl, by rw [hj]; exact hs.2.2.1,
        by rw [hj]; exact ih hs.2.2.2⟩

/-- The head pointer that a (possibly empty) tail segment starts with. -/
def hptr (l : List Nat) (nx : Option Nat) : Option Nat :=
  match l with
  | [] => nx
  | i :: _ => some i

/-- The back pointer a segment leaves for what follows it: its last element,
or the incoming back pointer when it is empty. -/
def pvAfter (pv : Option Nat) : List Nat → Option Nat
  | [] => pv
  | i :: l => pvAfter (some i) l

theorem seg_nil_iff {a : List OpCtx} {pv h nx : Option Nat} :
    seg a pv h [] nx ↔ h = nx := by rw [seg]

theorem seg_cons_iff {a : List OpCtx} {i : Nat} {rest : List Nat}
    {pv h nx : Option Nat} :
    seg a pv h (i :: rest) nx ↔ h = some i ∧ i < a.length ∧
      (getCtx a i).prev = pv ∧ seg a (some i) (getCtx a i).next rest nx := by
  rw [seg]

theorem seg_append_iff {a : List OpCtx} {l1 l2 : List Nat}
    {pv h nx : Option Nat} :
    seg a pv h (l1 ++ l2) nx ↔
      seg a pv h l1 (hptr l2 nx) ∧ seg a (pvAfter pv l1) (hptr l2 nx) l2 nx := by
  induction l1 generalizing pv h with
  | nil =>
      cases l2 with
      | nil => simp [hptr, seg_nil_iff, pvAfter]
      | cons j rest =>
          simp only [List.nil_append, hptr, seg_cons_iff, seg_nil_iff, pvAfter]
          tauto
  | cons i l1' ih =>
      simp only [List.cons_append, seg_cons_iff, pvAfter, ih]
      tauto

theorem pvAfter_ne_nil {l : List Nat} (h : l ≠ []) (pv pv' : Option Nat) :
    pvAfter pv l = pvAfter pv' l := by
  induction l generalizing pv pv' with
  | nil => exact absurd rfl h
  | cons i rest _ => simp only [pvAfter]

theorem chainList_none (a : List OpCtx) (fuel : Nat) :
    chainList a fuel none = [] := by
  cases fuel <;> rfl

theorem chainList_of_seg {a : List OpCtx} :
    ∀ {l : List Nat} {pv h : Option Nat} {fuel : Nat}, seg a pv h l none →
      l.length ≤ fuel → chainList a fuel h = l := by
  intro l
  induction l with
  | nil =>
      intro pv h fuel hs _
      rw [seg_nil_iff] at hs
      subst hs
      exact chainList_none a fuel
  | cons j rest ih =>
      intro pv h fuel hs hf
      rw [seg_cons_iff] at hs
      obtain ⟨rfl, _, _, htail⟩ := hs
      cases fuel with
      | zero => simp at hf
      | succ f =>
          rw [chainList]
          rw [ih htail (Nat.le_of_succ_le_succ hf)]

theorem nodup_bounded_length {l : List Nat} {n : Nat} (hd : l.Nodup)
    (hb : ∀ i ∈ l, i < n) : l.length ≤ n := by
  have hsub : l ⊆ List.range n := by
    intro i hi
    exact List.mem_range.mpr (hb i hi)
  have := (List.subperm_of_subset hd hsub).length_le
  simpa using this

theorem WFl_activeChain {s : Store} {act fre : List Nat} (h : WFl s act fre) :
    activeChain s = act := by
  obtain ⟨h1, _, hn, _⟩ := h
  have hb := seg_mem_lt h1
  have hlen : act.length ≤ s.arena.length :=
    nodup_bounded_length ((List.nodup_append.mp hn).1) hb
  exact chainList_of_seg h1 hlen

theorem WFl_freeChain {s : Store} {act fre : List Nat} (h : WFl s act fre) :
    freeChain s = fre := by
  obtain ⟨_, h2, hn, _⟩ := h
  have hb := seg_mem_lt h2
  have hlen : fre.length ≤ s.arena.length :=
    nodup_bounded_length ((List.nodup_append.mp hn).2.1) hb
  exact chainList_of_seg h2 hlen

/-! The acquire step. -/

/-- The non-link payload of a record: everything but `prev`/`next`. -/
def nonLink (r : OpCtx) : Nat × Nat × VALUE × VALUE × Nat × Int :=
  (r.id, r.type, r.fiber, r.resume_value, r.completed, r.result)

theorem acquireRest_spec {s1 : Store} {c : Nat} {act : List Nat}
    (hc : c < s1.arena.length) (hcact : c ∉ act) (hNact : act.Nodup)
    (hA : seg s1.arena none s1.taken act none) (ty : Nat) (fb : VALUE) :
    ∃ s', acquireRest s1 c ty fb = (s', c) ∧
      s'.last_id = s1.last_id + 1 ∧ s'.available = s1.available ∧
      s'.taken = some c ∧ s'.arena.length = s1.arena.length ∧
      getCtx s'.arena c = { getCtx s1.arena c with id := s1.last_id + 1, prev := none, next := s1.taken, type := ty, fiber := fb, resume_value := VALUE.qnil, completed := 0, result := 0 } ∧
      (∀ j, j ≠ c → s1.taken ≠ some j → getCtx s'.arena j = getCtx s1.arena j) ∧
      (∀ t, s1.taken = some t → getCtx s'.arena t = { getCtx s1.arena t with prev := some c }) ∧
      seg s'.arena none (some c) (c :: act) none := by
  cases act with
  | nil =>
      rw [seg_nil_iff] at hA
      have e : acquireRest s1 c ty fb =
        ({ arena := updCtx (updCtx s1.arena c (fun r => { r with id := s1.last_id + 1, prev := none, next := none })) c (fun r => { r with type := ty, fiber := fb, resume_value := VALUE.qnil, completed := 0, result := 0 }),
           last_id := s1.last_id + 1, available := s1.available,
           taken := some c }, c) := by
        simp only [acquireRest, hA]
      have hc2 : c < (updCtx s1.arena c (fun r => { r with id := s1.last_id + 1, prev := none, next := none })).length := by
        rw [length_updCtx]; exact hc
      have gc : getCtx (updCtx (updCtx s1.arena c (fun r => { r with id := s1.last_id + 1, prev := none, next := none })) c (fun r => { r with type := ty, fiber := fb, resume_value := VALUE.qnil, completed := 0, result := 0 })) c =
          { getCtx s1.arena c with id := s1.last_id + 1, prev := none, next := none, type := ty, fiber := fb, resume_value := VALUE.qnil, completed := 0, result := 0 } := by
        rw [getCtx_updCtx_self _ _ _ hc2, getCtx_updCtx_self _ _ _ hc]
      have gne : ∀ j, j ≠ c → getCtx (updCtx (updCtx s1.arena c (fun r => { r with id := s1.last_id + 1, prev := none, next := none })) c (fun r => { r with type := ty, fiber := fb, resume_value := VALUE.qnil, completed := 0, result := 0 })) j = getCtx s1.arena j := by
        intro j hj
        rw [getCtx_updCtx_ne _ _ _ _ hj, getCtx_updCtx_ne _ _ _ _ hj]
      refine ⟨_, e, rfl, rfl, rfl, by simp [length_updCtx], by rw [hA]; exact gc,
        fun j hj _ => gne j hj, fun t ht => absurd (hA ▸ ht) (by simp), ?_⟩
      rw [seg_cons_iff]
      refine ⟨rfl, by simpa [length_updCtx] using hc, by rw [gc], ?_⟩
      rw [gc]
      exact seg_nil_iff.mpr rfl
  | cons t rest =>
      rw [seg_cons_iff] at hA
      obtain ⟨htk, htlen, htprev, htail⟩ := hA
      have hct : c ≠ t := by intro e; exact hcact (by simp [e])
      have htc : t ≠ c := Ne.symm hct
      have e : acquireRest s1 c ty fb =
        ({ arena := updCtx (updCtx (updCtx s1.arena c (fun r => { r with id := s1.last_id + 1, prev := none, next := some t })) t (fun r => { r with prev := some c })) c (fun r => { r with type := ty, fiber := fb, resume_value := VALUE.qnil, completed := 0, result := 0 }),
           last_id := s1.last_id + 1, available := s1.available,
           taken := some c }, c) := by
        simp only [acquireRest, htk]
      set a2 := updCtx s1.arena c (fun r => { r with id := s1.last_id + 1, prev := none, next := some t }) with ha2
      set a3 := updCtx a2 t (fun r => { r with prev := some c }) with ha3
      set a4 := updCtx a3 c (fun r => { r with type := ty, fiber := fb, resume_value := VALUE.qnil, completed := 0, result := 0 }) with ha4
      have len2 : a2.length = s1.arena.length := length_updCtx _ _ _
      have len3 : a3.length = s1.arena.length := by
        rw [ha3, length_updCtx, len2]
      have len4 : a4.length = s1.arena.length := by
        rw [ha4, length_updCtx, len3]
      have hc3 : c < a3.length := by rw [len3]; exact hc
      have ht2 : t < a2.length := by rw [len2]; exact htlen
      have gc : getCtx a4 c = { getCtx s1.arena c with id := s1.last_id + 1, prev := none, next := some t, type := ty, fiber := fb, resume_value := VALUE.qnil, completed := 0, result := 0 } := by
        rw [ha4, getCtx_updCtx_self _ _ _ hc3, ha3, getCtx_updCtx_ne _ _ _ _ hct,
          ha2, getCtx_updCtx_self _ _ _ hc]
      have gt : getCtx a4 t = { getCtx s1.arena t with prev := some c } := by
        rw [ha4, getCtx_updCtx_ne _ _ _ _ htc, ha3,
          getCtx_updCtx_self _ _ _ ht2, ha2, getCtx_updCtx_ne _ _ _ _ htc]
      have gne : ∀ j, j ≠ c → j ≠ t → getCtx a4 j = getCtx s1.arena j := by
        intro j hjc hjt
        rw [ha4, getCtx_updCtx_ne _ _ _ _ hjc, ha3, getCtx_updCtx_ne _ _ _ _ hjt,
          ha2, getCtx_updCtx_ne _ _ _ _ hjc]
      have hrestc : c ∉ rest := fun h => hcact (by simp [h])
      have hrestt : t ∉ rest := (List.nodup_cons.mp hNact).1
      refine ⟨_, e, rfl, rfl, rfl, len4, by rw [htk]; exact gc,
        fun j hjc hjt => gne j hjc (by intro ee; rw [ee] at hjt; exact hjt htk),
        ?_, ?_⟩
      · intro t2 ht2e
        rw [htk] at ht2e
        have h3 : t2 = t := by injection ht2e.symm
        rw [h3, gt]
      · rw [seg_cons_iff]
        refine ⟨rfl, by rw [len4]; exact hc, by rw [gc], ?_⟩
        rw [gc]
        rw [seg_cons_iff]
        refine ⟨rfl, by rw [len4]; exact htlen, by rw [gt], ?_⟩
        rw [gt]
        show seg a4 (some t) (getCtx s1.arena t).next rest none
        refine seg_congr (by rw [len4]) ?_ htail
        intro j hj
        exact gne j (fun ee => hrestc (ee ▸ hj)) (fun ee => hrestt (ee ▸ hj))


theorem acquire_spec {s : Store} {act fre : List Nat} (h : WFl s act fre)
    (ty : Nat) (fb : VALUE) :
    ∃ s' c, context_store_acquire s ty fb = (s', c) ∧
      WFl s' (c :: act) fre.tail ∧
      s'.last_id = s.last_id + 1 ∧
      s'.taken = some c ∧
      (s.available = none →
        c = s.arena.length ∧ s'.arena.length = s.arena.length + 1) ∧
      (∀ c0, s.available = some c0 → c = c0 ∧
        s'.arena.length = s.arena.length ∧
        s'.available = (getCtx s.arena c0).next ∧
        (∀ n, (getCtx s.arena c0).next = some n →
          (getCtx s'.arena n).prev = none)) ∧
      (getCtx s'.arena c).id = s.last_id + 1 ∧
      (getCtx s'.arena c).prev = none ∧
      (getCtx s'.arena c).next = s.taken ∧
      (getCtx s'.arena c).type = ty ∧
      (getCtx s'.arena c).fiber = fb ∧
      (getCtx s'.arena c).resume_value = VALUE.qnil ∧
      (getCtx s'.arena c).completed = 0 ∧
      (getCtx s'.arena c).result = 0 ∧
      (∀ t, s.taken = some t → (getCtx s'.arena t).prev = some c) ∧
      (∀ j, j ≠ c → nonLink (getCtx s'.arena j) = nonLink (getCtx s.arena j)) := by
  obtain ⟨hA, hF, hN, hP⟩ := h
  rcases List.nodup_append.mp hN with ⟨hNact, hNfre, hdisj⟩
  have htkmem : ∀ t, s.taken = some t → t ∈ act := by
    intro t ht
    cases act with
    | nil => rw [seg_nil_iff] at hA; rw [hA] at ht; cases ht
    | cons u rest =>
        rw [seg_cons_iff] at hA
        rw [hA.1] at ht
        injection ht with ht2
        simp [ht2]
  cases fre with
  | nil =>
      rw [seg_nil_iff] at hF
      set s1 : Store := { arena := s.arena ++ [default], last_id := s.last_id, available := none, taken := s.taken } with hs1
      have e0 : context_store_acquire s ty fb =
          acquireRest s1 s.arena.length ty fb := by
        simp only [context_store_acquire, hF]
      have hA1 : seg s1.arena none s1.taken act none := seg_append_one hA
      have hcact : s.arena.length ∉ act :=
        fun hm => lt_irrefl _ (seg_mem_lt hA _ hm)
      have hc : s.arena.length < s1.arena.length := by simp [hs1]
      obtain ⟨s', e, hlast, hav, htk, hlen, hrec, hfr, hpt, hsg⟩ :=
        acquireRest_spec hc hcact hNact hA1 ty fb
      have hlen1 : s1.arena.length = s.arena.length + 1 := by simp [hs1]
      refine ⟨s', s.arena.length, by rw [e0, e], ?_, by rw [hlast], htk,
        fun _ => ⟨rfl, by rw [hlen, hlen1]⟩,
        fun c0 hc0 => absurd (hF ▸ hc0) (by simp),
        by simp [hrec], by simp [hrec], by simp [hrec], by simp [hrec],
        by simp [hrec], by simp [hrec], by simp [hrec], by simp [hrec],
        ?_, ?_⟩
      · -- WFl s' (len :: act) []
        refine ⟨by rw [htk]; exact hsg, ?_, ?_, ?_⟩
        · rw [hav]
          show seg s'.arena none none [] none
          exact seg_nil_iff.mpr rfl
        · show ((s.arena.length :: act) ++ []).Nodup
          rw [List.append_nil]
          exact List.nodup_cons.mpr ⟨hcact, hNact⟩
        · intro i hi
          rw [hlen, hlen1] at hi
          rcases Nat.lt_succ_iff_lt_or_eq.mp hi with hi2 | hi2
          · have := hP i hi2
            simp at this ⊢
            tauto
          · simp [hi2]
      · intro t ht
        rw [hpt t ht]
      · intro j hj
        by_cases hjt : s.taken = some j
        · rw [hpt j hjt]
          have hjlt : j < s.arena.length := seg_mem_lt hA _ (htkmem j hjt)
          have hj1 : getCtx s1.arena j = getCtx s.arena j := getCtx_append_lt _ _ _ hjlt
          rw [nonLink, nonLink, hj1]
        · rw [hfr j hj hjt]
          rcases Nat.lt_or_ge j s.arena.length with hlt | hge
          · show nonLink (getCtx (s.arena ++ [default]) j) = _
            rw [getCtx_append_lt _ _ _ hlt]
          · have hge2 : s1.arena.length ≤ j := by
              rw [hlen1]; omega
            show nonLink (getCtx (s.arena ++ [default]) j) = _
            rw [getCtx_ge _ _ (by simpa using hge2), getCtx_ge _ _ hge]
  | cons c0 fre' =>
      rw [seg_cons_iff] at hF
      obtain ⟨hava, hc0len, hc0prev, htailF⟩ := hF
      have hc0act : c0 ∉ act := fun hm => hdisj hm (by simp)
      have hc0fre' : c0 ∉ fre' := (List.nodup_cons.mp hNfre).1
      cases hnx : (getCtx s.arena c0).next with
      | none =>
          have hfre' : fre' = [] := by
            cases fre' with
            | nil => rfl
            | cons m rest =>
                rw [hnx, seg_cons_iff] at htailF
                cases htailF.1
          subst hfre'
          set s1 : Store := { arena := s.arena, last_id := s.last_id, available := none, taken := s.taken } with hs1
          have e0 : context_store_acquire s ty fb = acquireRest s1 c0 ty fb := by
            simp only [context_store_acquire, hava, hnx]
          have hA1 : seg s1.arena none s1.taken act none := hA
          have hc1 : c0 < s1.arena.length := hc0len
          obtain ⟨s', e, hlast, hav, htk, hlen, hrec, hfr, hpt, hsg⟩ :=
            acquireRest_spec hc1 hc0act hNact hA1 ty fb
          refine ⟨s', c0, by rw [e0, e], ?_, by rw [hlast], htk,
            fun hno => absurd (hava ▸ hno) (by simp), ?_,
            by simp [hrec], by simp [hrec], by simp [hrec], by simp [hrec],
            by simp [hrec], by simp [hrec], by simp [hrec], by simp [hrec],
            ?_, ?_⟩
          · refine ⟨by rw [htk]; exact hsg, ?_, ?_, ?_⟩
            · rw [hav]
              show seg s'.arena none none [] none
              exact seg_nil_iff.mpr rfl
            · show ((c0 :: act) ++ []).Nodup
              rw [List.append_nil]
              exact List.nodup_cons.mpr ⟨hc0act, hNact⟩
            · intro i hi
              rw [hlen] at hi
              have := hP i hi
              simp at this ⊢
              tauto
          · intro c1 hc1e
            rw [hava] at hc1e
            injection hc1e with hc1e
            refine ⟨hc1e, hlen, ?_, ?_⟩
            · rw [hav, ← hc1e, hnx]
            · intro n hn
              rw [← hc1e, hnx] at hn
              cases hn
          · intro t ht
            rw [hpt t ht]
          · intro j hj
            by_cases hjt : s.taken = some j
            · rw [hpt j hjt]
              rfl
            · rw [hfr j hj hjt]
      | some n =>
          obtain ⟨fre'', hfre''⟩ : ∃ fre'', fre' = n :: fre'' := by
            cases fre' with
            | nil =>
                rw [hnx, seg_nil_iff] at htailF
                cases htailF
            | cons m rest =>
                rw [hnx, seg_cons_iff] at htailF
                injection htailF.1 with hh
                exact ⟨rest, by rw [hh]⟩
          subst hfre''
          rw [hnx, seg_cons_iff] at htailF
          obtain ⟨-, hnlen, hnprev, htailF2⟩ := htailF
          have hnc0 : n ≠ c0 := fun hh => hc0fre' (hh ▸ List.mem_cons_self n _)
          have hnact : n ∉ act := fun hm => hdisj hm (by simp)
          have hnfre'' : n ∉ fre'' := (List.nodup_cons.mp (List.nodup_cons.mp hNfre).2).1
          set s1 : Store := { arena := updCtx s.arena n (fun r => { r with prev := none }), last_id := s.last_id, available := some n, taken := s.taken } with hs1
          have hgc0 : getCtx s1.arena c0 = getCtx s.arena c0 := by
            simp only [hs1]
            exact getCtx_updCtx_ne _ _ _ _ (Ne.symm hnc0)
          have e0 : context_store_acquire s ty fb = acquireRest s1 c0 ty fb := by
            show context_store_acquire s ty fb = _
            simp only [context_store_acquire, hava, hnx]
            rw [show getCtx (updCtx s.arena n (fun r => { r with prev := none })) c0 = getCtx s.arena c0 from getCtx_updCtx_ne _ _ _ _ (Ne.symm hnc0), hnx]
          have len1 : s1.arena.length = s.arena.length := by
            simp only [hs1]
            exact length_updCtx _ _ _
          have hA1 : seg s1.arena none s1.taken act none := by
            simp only [hs1]
            exact seg_updCtx_not_mem hnact hA
          have hc1 : c0 < s1.arena.length := by rw [len1]; exact hc0len
          obtain ⟨s', e, hlast, hav, htk, hlen, hrec, hfr, hpt, hsg⟩ :=
            acquireRest_spec hc1 hc0act hNact hA1 ty fb
          have hgn1 : getCtx s1.arena n = { getCtx s.arena n with prev := none } := by
            simp only [hs1]
            exact getCtx_updCtx_self _ _ _ hnlen
          have hup : ∀ j, j ≠ n → getCtx s1.arena j = getCtx s.arena j := by
            intro j hjn
            simp only [hs1]
            exact getCtx_updCtx_ne _ _ _ _ hjn
          have hntk : s1.taken ≠ some n := by
            show s.taken ≠ some n
            intro hh
            exact hnact (htkmem n hh)
          have hgn : getCtx s'.arena n = { getCtx s.arena n with prev := none } := by
            rw [hfr n hnc0 hntk]
            exact hgn1
          have hfr2 : ∀ j, j ≠ c0 → j ≠ n → s.taken ≠ some j →
              getCtx s'.arena j = getCtx s.arena j := by
            intro j hjc hjn hjt
            rw [hfr j hjc hjt]
            exact hup j hjn
          refine ⟨s', c0, by rw [e0, e], ?_, by rw [hlast], htk,
            fun hno => absurd (hava ▸ hno) (by simp), ?_,
            by simp [hrec], by simp [hrec], by simp [hrec], by simp [hrec],
            by simp [hrec], by simp [hrec], by simp [hrec], by simp [hrec],
            ?_, ?_⟩
          · refine ⟨by rw [htk]; exact hsg, ?_, ?_, ?_⟩
            · rw [hav]
              show seg s'.arena none s1.available (n :: fre'') none
              rw [seg_cons_iff]
              refine ⟨rfl, by rw [hlen, len1]; exact hnlen, by rw [hgn], ?_⟩
              rw [hgn]
              show seg s'.arena (some n) (getCtx s.arena n).next fre'' none
              refine seg_congr (by rw [hlen, len1]) ?_ htailF2
              intro i hi
              have hic0 : i ≠ c0 :=
                fun hh => hc0fre' (hh ▸ List.mem_cons_of_mem n hi)
              have hin : i ≠ n := fun hh => hnfre'' (hh ▸ hi)
              have hitk : s.taken ≠ some i := by
                intro hh
                exact hdisj (htkmem i hh) (by simp [hi])
              exact hfr2 i hic0 hin hitk
            · show ((c0 :: act) ++ n :: fre'').Nodup
              exact (List.perm_middle).nodup hN
            · intro i hi
              rw [hlen, len1] at hi
              have := hP i hi
              simp at this ⊢
              tauto
          · intro c1 hc1e
            rw [hava] at hc1e
            injection hc1e with hc1e
            refine ⟨hc1e, by rw [hlen, len1], ?_, ?_⟩
            · rw [hav, ← hc1e, hnx]
            · intro n2 hn2
              rw [← hc1e, hnx] at hn2
              injection hn2 with hn2
              rw [← hn2, hgn]
          · intro t ht
            rw [hpt t ht]
          · intro j hj
            by_cases hjt : s.taken = some j
            · rw [hpt j hjt]
              by_cases hjn : j = n
              · subst hjn
                rw [hgn1]
                rfl
              · rw [hup j hjn]
                rfl
            · by_cases hjn : j = n
              · subst hjn
                rw [hgn]
                rfl
              · rw [hfr2 j hj hjn hjt]

/-! The release step: frame lemmas. -/

theorem nonLink_updCtx {f : OpCtx → OpCtx} (hf : ∀ r, nonLink (f r) = nonLink r)
    (a : List OpCtx) (i j : Nat) :
    nonLink (getCtx (updCtx a i f) j) = nonLink (getCtx a j) := by
  by_cases hj : j = i
  · subst hj
    by_cases hi : j < a.length
    · rw [getCtx_updCtx_self _ _ _ hi, hf]
    · rw [updCtx_out _ _ _ (Nat.le_of_not_lt hi)]
  · rw [getCtx_updCtx_ne _ _ _ _ hj]

theorem relFixNext_length (c : Nat) (a : List OpCtx) :
    (relFixNext c a).length = a.length := by
  cases hx : (getCtx a c).next with
  | none => simp only [relFixNext, hx]
  | some n =>
      simp only [relFixNext, hx]
      exact length_updCtx _ _ _

theorem relFixNext_nonLink (c : Nat) (a : List OpCtx) (i : Nat) :
    nonLink (getCtx (relFixNext c a) i) = nonLink (getCtx a i) := by
  cases hx : (getCtx a c).next with
  | none => simp only [relFixNext, hx]
  | some n =>
      simp only [relFixNext, hx]
      refine nonLink_updCtx ?_ a n i
      intro r
      rfl

theorem relFixNext_frame (c : Nat) (a : List OpCtx) (i : Nat)
    (h : (getCtx a c).next ≠ some i) :
    getCtx (relFixNext c a) i = getCtx a i := by
  cases hx : (getCtx a c).next with
  | none => simp only [relFixNext, hx]
  | some n =>
      simp only [relFixNext, hx]
      refine getCtx_updCtx_ne _ _ _ _ ?_
      intro he
      exact h (by rw [hx, he])

theorem relFixNext_c_prev (c : Nat) (a : List OpCtx) :
    (getCtx (relFixNext c a) c).prev = (getCtx a c).prev := by
  cases hx : (getCtx a c).next with
  | none => simp only [relFixNext, hx]
  | some n =>
      simp only [relFixNext, hx]
      by_cases hnc : c = n
      · subst hnc
        by_cases hcl : c < a.length
        · rw [getCtx_updCtx_self _ _ _ hcl]
        · rw [updCtx_out _ _ _ (Nat.le_of_not_lt hcl)]
      · rw [getCtx_updCtx_ne _ _ _ _ hnc]

theorem relFixNext_c_next (c : Nat) (a : List OpCtx) :
    (getCtx (relFixNext c a) c).next = (getCtx a c).next := by
  cases hx : (getCtx a c).next with
  | none => simp only [relFixNext, hx]
  | some n =>
      simp only [relFixNext, hx]
      by_cases hnc : c = n
      · subst hnc
        by_cases hcl : c < a.length
        · rw [getCtx_updCtx_self _ _ _ hcl, hx]
        · rw [updCtx_out _ _ _ (Nat.le_of_not_lt hcl), hx]
      · rw [getCtx_updCtx_ne _ _ _ _ hnc, hx]

theorem relFixPrev_length (c : Nat) (a : List OpCtx) :
    (relFixPrev c a).length = a.length := by
  cases hx : (getCtx a c).prev with
  | none => simp only [relFixPrev, hx]
  | some p =>
      simp only [relFixPrev, hx]
      exact length_updCtx _ _ _

theorem relFixPrev_nonLink (c : Nat) (a : List OpCtx) (i : Nat) :
    nonLink (getCtx (relFixPrev c a) i) = nonLink (getCtx a i) := by
  cases hx : (getCtx a c).prev with
  | none => simp only [relFixPrev, hx]
  | some p =>
      simp only [relFixPrev, hx]
      refine nonLink_updCtx ?_ a p i
      intro r
      rfl

theorem relFixPrev_frame (c : Nat) (a : List OpCtx) (i : Nat)
    (h : (getCtx a c).prev ≠ some i) :
    getCtx (relFixPrev c a) i = getCtx a i := by
  cases hx : (getCtx a c).prev with
  | none => simp only [relFixPrev, hx]
  | some p =>
      simp only [relFixPrev, hx]
      refine getCtx_updCtx_ne _ _ _ _ ?_
      intro he
      exact h (by rw [hx, he])

theorem relFixPrev_c_next (c : Nat) (a : List OpCtx) :
    (getCtx (relFixPrev c a) c).next = (getCtx a c).next := by
  cases hx : (getCtx a c).prev with
  | none => simp only [relFixPrev, hx]
  | some p =>
      simp only [relFixPrev, hx]
      by_cases hpc : c = p
      · subst hpc
        by_cases hcl : c < a.length
        · rw [getCtx_updCtx_self _ _ _ hcl]
        · rw [updCtx_out _ _ _ (Nat.le_of_not_lt hcl)]
      · rw [getCtx_updCtx_ne _ _ _ _ hpc]

theorem relPush_length (c : Nat) (av : Option Nat) (a : List OpCtx) :
    (relPush c av a).length = a.length := length_updCtx _ _ _

theorem relPush_nonLink (c : Nat) (av : Option Nat) (a : List OpCtx) (i : Nat) :
    nonLink (getCtx (relPush c av a) i) = nonLink (getCtx a i) := by
  refine nonLink_updCtx ?_ a c i
  intro r
  rfl

theorem relPush_frame (c : Nat) (av : Option Nat) (a : List OpCtx) (i : Nat)
    (h : i ≠ c) : getCtx (relPush c av a) i = getCtx a i :=
  getCtx_updCtx_ne _ _ _ _ h

theorem relPush_c (c : Nat) (av : Option Nat) (a : List OpCtx)
    (h : c < a.length) :
    getCtx (relPush c av a) c = { getCtx a c with prev := none, next := av } :=
  getCtx_updCtx_self _ _ _ h

theorem relFixAvailHead_length (c : Nat) (a : List OpCtx) :
    (relFixAvailHead c a).length = a.length := by
  cases hx : (getCtx a c).next with
  | none => simp only [relFixAvailHead, hx]
  | some m =>
      simp only [relFixAvailHead, hx]
      exact length_updCtx _ _ _

theorem relFixAvailHead_nonLink (c : Nat) (a : List OpCtx) (i : Nat) :
    nonLink (getCtx (relFixAvailHead c a) i) = nonLink (getCtx a i) := by
  cases hx : (getCtx a c).next with
  | none => simp only [relFixAvailHead, hx]
  | some m =>
      simp only [relFixAvailHead, hx]
      refine nonLink_updCtx ?_ a m i
      intro r
      rfl

theorem relFixAvailHead_frame (c : Nat) (a : List OpCtx) (i : Nat)
    (h : (getCtx a c).next ≠ some i) :
    getCtx (relFixAvailHead c a) i = getCtx a i := by
  cases hx : (getCtx a c).next with
  | none => simp only [relFixAvailHead, hx]
  | some m =>
      simp only [relFixAvailHead, hx]
      refine getCtx_updCtx_ne _ _ _ _ ?_
      intro he
      exact h (by rw [hx, he])

/-! Helper lemmas for the release chain surgery. -/

theorem hptr_nil (nx : Option Nat) : hptr [] nx = nx := rfl

theorem hptr_cons (i : Nat) (l : List Nat) (nx : Option Nat) :
    hptr (i :: l) nx = some i := rfl

theorem hptr_none_eq_some {l : List Nat} {x : Nat}
    (h : hptr l none = some x) : x ∈ l := by
  cases l with
  | nil => cases h
  | cons i r =>
      rw [hptr_cons] at h
      injection h with h
      simp [h]

theorem hptr_ne_nil_eq_some {L : List Nat} {nx : Option Nat} {x : Nat}
    (hL : L ≠ []) (h : hptr L nx = some x) : x ∈ L := by
  cases L with
  | nil => exact absurd rfl hL
  | cons i r =>
      rw [hptr_cons] at h
      injection h with h
      simp [h]

theorem pvAfter_concat (pv : Option Nat) (l : List Nat) (p : Nat) :
    pvAfter pv (l ++ [p]) = some p := by
  induction l generalizing pv with
  | nil => rfl
  | cons i r ih => exact ih (some i)

theorem pvAfter_eq_some :
    ∀ (l : List Nat) (pv : Option Nat) (x : Nat), pvAfter pv l = some x →
      pv = some x ∨ x ∈ l := by
  intro l
  induction l with
  | nil => intro pv x h; exact Or.inl h
  | cons i r ih =>
      intro pv x h
      rcases ih (some i) x h with h2 | h2
      · injection h2 with h2
        exact Or.inr (by simp [h2])
      · exact Or.inr (by simp [h2])

theorem seg_head {a : List OpCtx} {pv h nx : Option Nat} {l : List Nat}
    (hs : seg a pv h l nx) : h = hptr l nx := by
  cases l with
  | nil => rw [seg_nil_iff] at hs; rw [hs]; rfl
  | cons i r => rw [seg_cons_iff] at hs; rw [hs.1]; rfl

theorem relFixNext_eq_some {a : List OpCtx} {c n : Nat}
    (h : (getCtx a c).next = some n) :
    relFixNext c a = updCtx a n (fun r => { r with prev := (getCtx a c).prev }) := by
  simp only [relFixNext, h]

theorem relFixNext_eq_none {a : List OpCtx} {c : Nat}
    (h : (getCtx a c).next = none) : relFixNext c a = a := by
  simp only [relFixNext, h]

theorem relFixPrev_eq_some {a : List OpCtx} {c p : Nat}
    (h : (getCtx a c).prev = some p) :
    relFixPrev c a = updCtx a p (fun r => { r with next := (getCtx a c).next }) := by
  simp only [relFixPrev, h]

theorem relFixPrev_eq_none {a : List OpCtx} {c : Nat}
    (h : (getCtx a c).prev = none) : relFixPrev c a = a := by
  simp only [relFixPrev, h]

theorem relFixAvailHead_eq_some {a : List OpCtx} {c m : Nat}
    (h : (getCtx a c).next = some m) :
    relFixAvailHead c a = updCtx a m (fun r => { r with prev := some c }) := by
  simp only [relFixAvailHead, h]

theorem relFixAvailHead_eq_none {a : List OpCtx} {c : Nat}
    (h : (getCtx a c).next = none) : relFixAvailHead c a = a := by
  simp only [relFixAvailHead, h]

theorem release_taken (s : Store) (c : Nat) :
    (context_store_release s c).taken =
      if s.taken = some c
      then (getCtx (relFixPrev c (relFixNext c s.arena)) c).next
      else s.taken := rfl

theorem release_arena (s : Store) (c : Nat) :
    (context_store_release s c).arena =
      relFixAvailHead c (relPush c s.available
        (relFixPrev c (relFixNext c s.arena))) := rfl

theorem release_last_id (s : Store) (c : Nat) :
    (context_store_release s c).last_id = s.last_id := rfl

theorem release_available (s : Store) (c : Nat) :
    (context_store_release s c).available = some c := rfl

theorem release_length (s : Store) (c : Nat) :
    (context_store_release s c).arena.length = s.arena.length := by
  rw [release_arena, relFixAvailHead_length, relPush_length, relFixPrev_length,
    relFixNext_length]

theorem release_nonLink (s : Store) (c : Nat) (i : Nat) :
    nonLink (getCtx (context_store_release s c).arena i) =
      nonLink (getCtx s.arena i) := by
  rw [release_arena, relFixAvailHead_nonLink, relPush_nonLink,
    relFixPrev_nonLink, relFixNext_nonLink]

theorem release_untouched (s : Store) (c : Nat) (i : Nat) (hic : i ≠ c)
    (hin : (getCtx s.arena c).next ≠ some i)
    (hip : (getCtx s.arena c).prev ≠ some i)
    (hia : s.available ≠ some i) :
    getCtx (context_store_release s c).arena i = getCtx s.arena i := by
  rw [release_arena]
  have h1 : getCtx (relFixNext c s.arena) i = getCtx s.arena i :=
    relFixNext_frame _ _ _ hin
  have hp1 : (getCtx (relFixNext c s.arena) c).prev = (getCtx s.arena c).prev :=
    relFixNext_c_prev _ _
  have h2 : getCtx (relFixPrev c (relFixNext c s.arena)) i =
      getCtx (relFixNext c s.arena) i := by
    refine relFixPrev_frame _ _ _ ?_
    rw [hp1]
    exact hip
  have h3 : getCtx (relPush c s.available (relFixPrev c (relFixNext c s.arena))) i =
      getCtx (relFixPrev c (relFixNext c s.arena)) i :=
    relPush_frame _ _ _ _ hic
  have h4 : getCtx (relFixAvailHead c (relPush c s.available
      (relFixPrev c (relFixNext c s.arena)))) i =
      getCtx (relPush c s.available (relFixPrev c (relFixNext c s.arena))) i := by
    refine relFixAvailHead_frame _ _ _ ?_
    by_cases hcl : c < (relFixPrev c (relFixNext c s.arena)).length
    · rw [relPush_c _ _ _ hcl]
      exact hia
    · rw [show relPush c s.available (relFixPrev c (relFixNext c s.arena)) =
          relFixPrev c (relFixNext c s.arena) from
          updCtx_out _ _ _ (Nat.le_of_not_lt hcl)]
      have hge : (relFixPrev c (relFixNext c s.arena)).length ≤ c :=
        Nat.le_of_not_lt hcl
      rw [getCtx_ge _ _ hge]
      intro hn
      cases hn
  rw [h4, h3, h2, h1]

theorem release_spec {s : Store} {act fre l1 l2 : List Nat} {j : Nat}
    (h : WFl s act fre) (hsplit : act = l1 ++ j :: l2) :
    WFl (context_store_release s j) (l1 ++ l2) (j :: fre) := by
  obtain ⟨hA, hF, hN, hP⟩ := h
  subst hsplit
  rcases List.nodup_append.mp hN with ⟨hNact, hNfre, hdisj⟩
  rcases List.nodup_append.mp hNact with ⟨hNl1, hNjl2, hdisj12⟩
  have hjl2 : j ∉ l2 := (List.nodup_cons.mp hNjl2).1
  have hNl2 : l2.Nodup := (List.nodup_cons.mp hNjl2).2
  have hjl1 : j ∉ l1 := fun hm => hdisj12 hm (by simp)
  have hjfre : j ∉ fre := fun hm => hdisj (by simp) hm
  have hl1fre : ∀ x ∈ l1, x ∉ fre := fun x hx hf => hdisj (by simp [hx]) hf
  have hl2fre : ∀ x ∈ l2, x ∉ fre := fun x hx hf => hdisj (by simp [hx]) hf
  have hl1l2 : ∀ x ∈ l1, x ∉ l2 := fun x hx h2 => hdisj12 hx (by simp [h2])
  rw [seg_append_iff] at hA
  simp only [hptr_cons] at hA
  obtain ⟨hA1, hA2⟩ := hA
  rw [seg_cons_iff] at hA2
  obtain ⟨-, hjlen, hjprev, hjtail⟩ := hA2
  have hjnext : (getCtx s.arena j).next = hptr l2 none := by
    cases l2 with
    | nil => rw [seg_nil_iff] at hjtail; rw [hjtail]; rfl
    | cons m l2x => rw [seg_cons_iff] at hjtail; rw [hjtail.1]; rfl
  have havail : s.available = hptr fre none := seg_head hF
  -- the four arena stages
  set b1 := relFixNext j s.arena with hb1
  set b2 := relFixPrev j b1 with hb2
  set b3 := relPush j s.available b2 with hb3
  set b4 := relFixAvailHead j b3 with hb4
  have e4 : (context_store_release s j).arena = b4 := by
    rw [hb4, hb3, hb2, hb1]; exact release_arena s j
  have len1 : b1.length = s.arena.length := by
    rw [hb1, relFixNext_length]
  have len2 : b2.length = s.arena.length := by
    rw [hb2, relFixPrev_length, len1]
  have len3 : b3.length = s.arena.length := by
    rw [hb3, relPush_length, len2]
  have len4 : b4.length = s.arena.length := by
    rw [hb4, relFixAvailHead_length, len3]
  -- stage-wise frame and update facts
  have hb1f : ∀ x, hptr l2 none ≠ some x → getCtx b1 x = getCtx s.arena x := by
    intro x hx
    rw [hb1]
    refine relFixNext_frame _ _ _ ?_
    rw [hjnext]; exact hx
  have hb1jprev : (getCtx b1 j).prev = pvAfter none l1 := by
    rw [hb1, relFixNext_c_prev, hjprev]
  have hb1jnext : (getCtx b1 j).next = hptr l2 none := by
    rw [hb1, relFixNext_c_next, hjnext]
  have hb2f : ∀ x, pvAfter none l1 ≠ some x → getCtx b2 x = getCtx b1 x := by
    intro x hx
    rw [hb2]
    refine relFixPrev_frame _ _ _ ?_
    rw [hb1jprev]; exact hx
  have hb2jnext : (getCtx b2 j).next = hptr l2 none := by
    rw [hb2, relFixPrev_c_next, hb1jnext]
  have hjnotpv : pvAfter none l1 ≠ some j := by
    intro hh
    rcases pvAfter_eq_some l1 none j hh with h2 | h2
    · cases h2
    · exact hjl1 h2
  have hb2j : getCtx b2 j = getCtx s.arena j := by
    rw [hb2f j hjnotpv, hb1f j (fun hh => hjl2 (hptr_none_eq_some hh))]
  have hjlen2 : j < b2.length := by rw [len2]; exact hjlen
  have hb3j : getCtx b3 j = { getCtx b2 j with prev := none, next := s.available } := by
    rw [hb3]
    exact relPush_c _ _ _ hjlen2
  have hb3f : ∀ x, x ≠ j → getCtx b3 x = getCtx b2 x := by
    intro x hx
    rw [hb3]
    exact relPush_frame _ _ _ _ hx
  have hb4f : ∀ x, s.available ≠ some x → getCtx b4 x = getCtx b3 x := by
    intro x hx
    rw [hb4]
    refine relFixAvailHead_frame _ _ _ ?_
    rw [hb3j]
    exact hx
  have hjnotav : s.available ≠ some j := by
    rw [havail]
    intro hh
    exact hjfre (hptr_none_eq_some hh)
  have hb4j : getCtx b4 j = { getCtx s.arena j with prev := none, next := s.available } := by
    rw [hb4f j hjnotav, hb3j, hb2j]
  have hall : ∀ x, x ≠ j → hptr l2 none ≠ some x → pvAfter none l1 ≠ some x →
      s.available ≠ some x → getCtx b4 x = getCtx s.arena x := by
    intro x h1 h2 h3 h4
    rw [hb4f x h4, hb3f x h1, hb2f x h3, hb1f x h2]
  have havne : ∀ x, x ∉ fre → s.available ≠ some x := by
    intro x hx
    rw [havail]
    intro hh
    exact hx (hptr_none_eq_some hh)
  have hpvne : ∀ x, x ∉ l1 → pvAfter none l1 ≠ some x := by
    intro x hx hh
    rcases pvAfter_eq_some l1 none x hh with h2 | h2
    · cases h2
    · exact hx h2
  -- the tail part of the new active chain
  have hl2part : seg b4 (pvAfter none l1) (hptr l2 none) l2 none := by
    cases l2 with
    | nil => exact seg_nil_iff.mpr rfl
    | cons m l2x =>
        have hjnext2 : (getCtx s.arena j).next = some m := by
          rw [hjnext]; rfl
        rw [hjnext2, seg_cons_iff] at hjtail
        obtain ⟨-, hmlen, hmprev, hmtail⟩ := hjtail
        have hmj : m ≠ j := fun hh => hjl2 (hh ▸ List.mem_cons_self m l2x)
        have hml2x : m ∉ l2x := (List.nodup_cons.mp hNl2).1
        have hb1m : getCtx b1 m = { getCtx s.arena m with prev := pvAfter none l1 } := by
          rw [hb1, relFixNext_eq_some hjnext2, hjprev]
          exact getCtx_updCtx_self _ _ _ hmlen
        have hmnotpv : pvAfter none l1 ≠ some m :=
          hpvne m (fun h2 => hl1l2 m h2 (List.mem_cons_self m l2x))
        have hmnotav : s.available ≠ some m :=
          havne m (hl2fre m (List.mem_cons_self m l2x))
        have hb4m : getCtx b4 m = { getCtx s.arena m with prev := pvAfter none l1 } := by
          rw [hb4f m hmnotav, hb3f m hmj, hb2f m hmnotpv, hb1m]
        rw [hptr_cons, seg_cons_iff]
        refine ⟨rfl, by rw [len4]; exact hmlen, by rw [hb4m], ?_⟩
        rw [hb4m]
        show seg b4 (some m) (getCtx s.arena m).next l2x none
        refine seg_congr (by rw [len4]) ?_ hmtail
        intro x hx
        have hxm : x ≠ m := fun hh => hml2x (hh ▸ hx)
        have hxl2 : x ∈ m :: l2x := List.mem_cons_of_mem m hx
        refine hall x (fun hh => hjl2 (hh ▸ hxl2)) ?_
          (hpvne x (fun h2 => hl1l2 x h2 hxl2)) (havne x (hl2fre x hxl2))
        rw [hptr_cons]
        intro hh
        injection hh with hh
        exact hxm hh.symm
  -- assemble the four WFl components
  refine ⟨?_, ?_, ?_, ?_⟩
  · -- the active chain l1 ++ l2
    show seg (context_store_release s j).arena none
      (context_store_release s j).taken (l1 ++ l2) none
    rw [e4, release_taken, ← hb1, ← hb2]
    rcases List.eq_nil_or_concat l1 with rfl | ⟨l1x, p, hl1⟩
    · rw [seg_nil_iff] at hA1
      rw [if_pos hA1, hb2jnext]
      show seg b4 none (hptr l2 none) l2 none
      exact hl2part
    · rw [List.concat_eq_append] at hl1
      subst hl1
      have hpv : pvAfter none (l1x ++ [p]) = some p := pvAfter_concat _ _ _
      have hpl1 : p ∈ l1x ++ [p] := by simp
      have htknj : s.taken ≠ some j := by
        have hd := seg_head hA1
        intro heq
        rw [heq] at hd
        exact hjl1 (hptr_ne_nil_eq_some (by simp) hd.symm)
      rw [if_neg htknj]
      have hassoc : (l1x ++ [p]) ++ l2 = l1x ++ p :: l2 := by simp
      rw [hassoc, seg_append_iff, hptr_cons]
      rw [seg_append_iff] at hA1
      simp only [hptr_cons] at hA1
      obtain ⟨hA1a, hA1b⟩ := hA1
      rw [seg_cons_iff] at hA1b
      obtain ⟨-, hplen, hpprev, -⟩ := hA1b
      have hpnl1x : p ∉ l1x := by
        have := hNl1
        rw [List.nodup_append] at this
        exact fun hm => this.2.2 hm (by simp)
      have hpj : p ≠ j := fun hh => hjl1 (hh ▸ hpl1)
      have hpl2 : p ∉ l2 := hl1l2 p hpl1
      have hpfre : p ∉ fre := hl1fre p hpl1
      have hb1p : getCtx b1 p = getCtx s.arena p :=
        hb1f p (fun hh => hpl2 (hptr_none_eq_some hh))
      have hplen1 : p < b1.length := by rw [len1]; exact hplen
      have hb2p : getCtx b2 p = { getCtx s.arena p with next := hptr l2 none } := by
        rw [hb2, relFixPrev_eq_some (by rw [hb1jprev, hpv]),
          getCtx_updCtx_self _ _ _ hplen1, hb1jnext, hb1p]
      have hb4p : getCtx b4 p = { getCtx s.arena p with next := hptr l2 none } := by
        rw [hb4f p (havne p hpfre), hb3f p hpj, hb2p]
      constructor
      · refine seg_congr (by rw [len4]) ?_ hA1a
        intro x hx
        have hxl1 : x ∈ l1x ++ [p] := by simp [hx]
        refine hall x (fun hh => hjl1 (hh ▸ hxl1)) ?_ ?_ (havne x (hl1fre x hxl1))
        · intro hh
          exact hl1l2 x hxl1 (hptr_none_eq_some hh)
        · rw [hpv]
          intro hh
          injection hh with hh
          exact hpnl1x (hh ▸ hx)
      · rw [seg_cons_iff]
        refine ⟨rfl, by rw [len4]; exact hplen, by rw [hb4p]; exact hpprev, ?_⟩
        rw [hb4p]
        show seg b4 (some p) (hptr l2 none) l2 none
        rw [hpv] at hl2part
        exact hl2part
  · -- the free chain j :: fre
    show seg (context_store_release s j).arena none
      (context_store_release s j).available (j :: fre) none
    rw [e4, release_available, seg_cons_iff]
    refine ⟨rfl, by rw [len4]; exact hjlen, by rw [hb4j], ?_⟩
    rw [hb4j]
    show seg b4 (some j) s.available fre none
    cases fre with
    | nil => exact seg_nil_iff.mpr havail
    | cons m0 fre1 =>
        rw [seg_cons_iff] at hF
        obtain ⟨hF1, hm0len, hm0prev, hFtail⟩ := hF
        have hm0fre : m0 ∈ m0 :: fre1 := List.mem_cons_self m0 fre1
        have hm0j : m0 ≠ j := fun hh => hjfre (hh ▸ hm0fre)
        have hm0fre1 : m0 ∉ fre1 := (List.nodup_cons.mp hNfre).1
        have hm0l1 : m0 ∉ l1 := fun hm => hl1fre m0 hm hm0fre
        have hm0l2 : m0 ∉ l2 := fun hm => hl2fre m0 hm hm0fre
        have hscr : (getCtx b3 j).next = some m0 := by
          rw [hb3j]
          exact hF1
        have hb4eq : b4 = updCtx b3 m0 (fun r => { r with prev := some j }) := by
          rw [hb4]
          exact relFixAvailHead_eq_some hscr
        have hm0len3 : m0 < b3.length := by rw [len3]; exact hm0len
        have hb3m0 : getCtx b3 m0 = getCtx s.arena m0 := by
          rw [hb3f m0 hm0j, hb2f m0 (hpvne m0 hm0l1),
            hb1f m0 (fun hh => hm0l2 (hptr_none_eq_some hh))]
        have hb4m0 : getCtx b4 m0 = { getCtx s.arena m0 with prev := some j } := by
          rw [hb4eq, getCtx_updCtx_self _ _ _ hm0len3, hb3m0]
        refine ⟨hF1, by rw [len4]; exact hm0len, by rw [hb4m0], ?_⟩
        rw [hb4m0]
        show seg b4 (some m0) (getCtx s.arena m0).next fre1 none
        refine seg_congr (by rw [len4]) ?_ hFtail
        intro x hx
        have hxfre : x ∈ m0 :: fre1 := List.mem_cons_of_mem m0 hx
        have hxm0 : x ≠ m0 := fun hh => hm0fre1 (hh ▸ hx)
        refine hall x (fun hh => hjfre (hh ▸ hxfre)) ?_
          (hpvne x (fun hm => hl1fre x hm hxfre)) ?_
        · intro hh
          exact hl2fre x (hptr_none_eq_some hh) hxfre
        · rw [hF1]
          intro hh
          injection hh with hh
          exact hxm0 hh.symm
  · -- Nodup
    show ((l1 ++ l2) ++ j :: fre).Nodup
    have p1 : ((l1 ++ j :: l2) ++ fre).Perm (j :: ((l1 ++ l2) ++ fre)) :=
      ((List.perm_middle : (l1 ++ j :: l2).Perm (j :: (l1 ++ l2))).append_right fre)
    have p2 : ((l1 ++ l2) ++ j :: fre).Perm (j :: ((l1 ++ l2) ++ fre)) :=
      List.perm_middle
    exact ((p1.trans p2.symm).nodup hN)
  · -- membership
    intro i hi
    rw [release_length] at hi
    have hm := hP i hi
    have p1 : ((l1 ++ j :: l2) ++ fre).Perm (j :: ((l1 ++ l2) ++ fre)) :=
      ((List.perm_middle : (l1 ++ j :: l2).Perm (j :: (l1 ++ l2))).append_right fre)
    have p2 : ((l1 ++ l2) ++ j :: fre).Perm (j :: ((l1 ++ l2) ++ fre)) :=
      List.perm_middle
    exact ((p1.trans p2.symm).mem_iff).mp hm


/-! Sorted ids and bounded ids preservation; the master run lemma. -/

theorem idOf_eq_of_nonLink {s s' : Store} {i : Nat}
    (h : nonLink (getCtx s'.arena i) = nonLink (getCtx s.arena i)) :
    idOf s' i = idOf s i :=
  congrArg (fun q => q.1) h

theorem acquire_sorted {s : Store} {act fre : List Nat} {s' : Store} {c : Nat}
    (h : WFl s act fre) (hs : sortedIds s act) (hb : idsBounded s)
    {ty : Nat} {fb : VALUE} (e : context_store_acquire s ty fb = (s', c)) :
    sortedIds s' (c :: act) ∧ idsBounded s' ∧ idOf s' c = s.last_id + 1 := by
  obtain ⟨s2, c2, e2, hWF', hlast, htk, hnone, hsome, hid, -, -, -, -, -, -, -,
    -, hframe⟩ := acquire_spec h ty fb
  rw [e] at e2
  injection e2 with e2a e2b
  subst e2a
  subst e2b
  have hmemlt : ∀ x ∈ act, x < s.arena.length := seg_mem_lt h.1
  have hcact : c ∉ act := by
    have hnd := hWF'.2.2.1
    rw [List.nodup_append] at hnd
    exact (List.nodup_cons.mp hnd.1).1
  have hmap : act.map (idOf s') = act.map (idOf s) := by
    refine List.map_congr_left ?_
    intro x hx
    exact idOf_eq_of_nonLink (hframe x (fun hh => hcact (hh ▸ hx)))
  refine ⟨?_, ?_, hid⟩
  · show ((c :: act).map (idOf s')).Pairwise (fun x y => y < x)
    rw [List.map_cons, List.pairwise_cons]
    constructor
    · intro y hy
      rw [hmap] at hy
      obtain ⟨x, hxa, rfl⟩ := List.mem_map.mp hy
      have : idOf s x ≤ s.last_id := hb x (hmemlt x hxa)
      show idOf s x < idOf s' c
      rw [show idOf s' c = s.last_id + 1 from hid]
      omega
    · rw [hmap]
      exact hs
  · intro i hilen
    by_cases hic : i = c
    · subst hic
      rw [show idOf s' i = s.last_id + 1 from hid, hlast]
    · have hfr := idOf_eq_of_nonLink (hframe i hic)
      rw [hfr, hlast]
      have hi2 : i < s.arena.length := by
        cases hav : s.available with
        | none =>
            obtain ⟨hc, hl⟩ := hnone hav
            rw [hl] at hilen
            omega
        | some c0 =>
            obtain ⟨-, hl, -, -⟩ := hsome c0 hav
            rw [hl] at hilen
            exact hilen
      have := hb i hi2
      omega

theorem release_sorted {s : Store} {act l1 l2 : List Nat} {j : Nat}
    (hs : sortedIds s act) (hb : idsBounded s) (hsplit : act = l1 ++ j :: l2) :
    sortedIds (context_store_release s j) (l1 ++ l2) ∧
      idsBounded (context_store_release s j) := by
  subst hsplit
  have hfr : ∀ i, idOf (context_store_release s j) i = idOf s i :=
    fun i => idOf_eq_of_nonLink (release_nonLink s j i)
  constructor
  · show (((l1 ++ l2).map (idOf (context_store_release s j))).Pairwise
      (fun x y => y < x))
    have hmap : (l1 ++ l2).map (idOf (context_store_release s j)) =
        (l1 ++ l2).map (idOf s) := by
      refine List.map_congr_left ?_
      intro x _
      exact hfr x
    rw [hmap]
    have hsub : (l1 ++ l2).Sublist (l1 ++ j :: l2) :=
      List.Sublist.append_left (List.sublist_cons_self j l2) l1
    exact hs.sublist (hsub.map (idOf s))
  · intro i hilen
    rw [release_length] at hilen
    rw [hfr i, release_last_id]
    exact hb i hilen

theorem run_master : ∀ (ops : List Op) (s : Store) (act fre : List Nat),
    WFl s act fre → sortedIds s act → idsBounded s → validOps s ops →
    (∃ act2 fre2, WFl (runTrace s ops).1 act2 fre2 ∧
      sortedIds (runTrace s ops).1 act2 ∧ idsBounded (runTrace s ops).1) ∧
    s.last_id ≤ (runTrace s ops).1.last_id ∧
    List.Pairwise (fun x y => x < y) (runTrace s ops).2 ∧
    (∀ x ∈ (runTrace s ops).2, s.last_id < x) := by
  intro ops
  induction ops with
  | nil =>
      intro s act fre hW hs hb _
      exact ⟨⟨act, fre, hW, hs, hb⟩, Nat.le_refl _, by simp [runTrace],
        by simp [runTrace]⟩
  | cons op ops ih =>
      intro s act fre hW hs hb hv
      cases op with
      | acq ty fb =>
          obtain ⟨s', c, e, hWF', hlast, -, -, -, -, -, -, -, -, -, -, -, -, -⟩ :=
            acquire_spec hW ty fb
          obtain ⟨hs', hb', hid⟩ := acquire_sorted hW hs hb e
          have hv' : validOps s' ops := by
            have h2 : validOps s (Op.acq ty fb :: ops) =
                validOps (context_store_acquire s ty fb).1 ops := rfl
            rw [h2, e] at hv
            exact hv
          obtain ⟨hinv, hle, hpair, hgt⟩ := ih s' (c :: act) fre.tail hWF' hs' hb' hv'
          have e1 : (runTrace s (Op.acq ty fb :: ops)).1 = (runTrace s' ops).1 := by
            simp only [runTrace, e]
          have e2 : (runTrace s (Op.acq ty fb :: ops)).2 =
              (getCtx s'.arena c).id :: (runTrace s' ops).2 := by
            simp only [runTrace, e]
          rw [e1, e2]
          refine ⟨hinv, ?_, ?_, ?_⟩
          · have h4 : s.last_id ≤ s'.last_id := by rw [hlast]; omega
            omega
          · rw [List.pairwise_cons]
            constructor
            · intro y hy
              have := hgt y hy
              have h3 : (getCtx s'.arena c).id = s.last_id + 1 := hid
              rw [h3]
              rw [hlast] at this
              omega
            · exact hpair
          · intro x hx
            rcases List.mem_cons.mp hx with rfl | hx2
            · show s.last_id < (getCtx s'.arena c).id
              rw [show (getCtx s'.arena c).id = s.last_id + 1 from hid]
              omega
            · have := hgt x hx2
              rw [hlast] at this
              omega
      | rel j =>
          have hv2 : j ∈ activeChain s ∧ validOps (context_store_release s j) ops := hv
          have hact : activeChain s = act := WFl_activeChain hW
          have hmem : j ∈ act := hact ▸ hv2.1
          obtain ⟨l1, l2, hsplit⟩ := List.append_of_mem hmem
          have hWF' := release_spec hW hsplit
          obtain ⟨hs', hb'⟩ := release_sorted hs hb hsplit
          have egoal : runTrace s (Op.rel j :: ops) =
              runTrace (context_store_release s j) ops := rfl
          rw [egoal]
          obtain ⟨hinv, hle, hpair, hgt⟩ :=
            ih (context_store_release s j) (l1 ++ l2) (j :: fre) hWF' hs' hb' hv2.2
          refine ⟨hinv, ?_, hpair, ?_⟩
          · rw [release_last_id] at hle
            exact hle
          · intro x hx
            have := hgt x hx
            rw [release_last_id] at this
            exact this

theorem freeLoop_none {a : List OpCtx} :
    ∀ {l : List Nat} {pv h : Option Nat} {fuel : Nat}, seg a pv h l none →
      l.length ≤ fuel → freeLoopHead a fuel h = none := by
  intro l
  induction l with
  | nil =>
      intro pv h fuel hs _
      rw [seg_nil_iff] at hs
      subst hs
      cases fuel <;> rfl
  | cons i rest ih =>
      intro pv h fuel hs hf
      rw [seg_cons_iff] at hs
      obtain ⟨rfl, -, -, ht⟩ := hs
      cases fuel with
      | zero => simp at hf
      | succ f =>
          show freeLoopHead a f (getCtx a i).next = none
          exact ih ht (Nat.le_of_succ_le_succ hf)

/-! Facts about the freshly initialized store, and concrete demo stores. -/

theorem initStore_WFl : WFl initStore [] [] := by
  refine ⟨seg_nil_iff.mpr rfl, seg_nil_iff.mpr rfl, by simp, ?_⟩
  intro i hi
  simp [initStore] at hi

theorem initStore_sorted : sortedIds initStore [] := by
  simp [sortedIds]

theorem initStore_bounded : idsBounded initStore := by
  intro i hi
  simp [initStore] at hi

/-- Scenario store: three acquires from a fresh store (ids 1, 2, 3 at arena
indices 0, 1, 2; active chain `[2, 1, 0]`). -/
def s3demo : Store :=
  (runTrace initStore [Op.acq OP_READ (VALUE.obj 1), Op.acq OP_WRITE (VALUE.obj 2),
    Op.acq OP_SEND (VALUE.obj 3)]).1

/-- Scenario store: `s3demo` after releasing the id-2 record (arena index 1). -/
def s4demo : Store := context_store_release s3demo 1

/-- Scenario store: four acquires from a fresh store. -/
def s5demo : Store :=
  (runTrace initStore [Op.acq OP_READ (VALUE.obj 1), Op.acq OP_WRITE (VALUE.obj 2),
    Op.acq OP_SEND (VALUE.obj 3), Op.acq OP_RECV (VALUE.obj 4)]).1

/-! The claims. -/

/-- C1: on every well-formed store state, `acquire(kind)` follows the
specified algorithm: a non-empty free list has its head popped (the new free
head's back-link set to null) and reused, otherwise a fresh record is
allocated; the record gets `id = ++last_id`, is pushed onto the head of the
active list (its `prev` null, its `next` the old head, the old head's `prev`
updated when it existed), and its `kind`, owner fiber, `resume_value`
(reset to nil), `completed` (reset to 0, C's false) and `result` (reset to
0) are set; the record is returned. -/
theorem claim_C1_acquire_algorithm {s : Store} {act fre : List Nat}
    (h : WFl s act fre) (ty : Nat) (fb : VALUE) :
    ∃ s' c, context_store_acquire s ty fb = (s', c) ∧
      (s.available = none →
        c = s.arena.length ∧ s'.arena.length = s.arena.length + 1) ∧
      (∀ c0, s.available = some c0 → c = c0 ∧
        s'.arena.length = s.arena.length ∧
        s'.available = (getCtx s.arena c0).next ∧
        (∀ n, (getCtx s.arena c0).next = some n →
          (getCtx s'.arena n).prev = none)) ∧
      s'.last_id = s.last_id + 1 ∧
      (getCtx s'.arena c).id = s.last_id + 1 ∧
      s'.taken = some c ∧
      (getCtx s'.arena c).prev = none ∧
      (getCtx s'.arena c).next = s.taken ∧
      (∀ t, s.taken = some t → (getCtx s'.arena t).prev = some c) ∧
      (getCtx s'.arena c).type = ty ∧
      (getCtx s'.arena c).fiber = fb ∧
      (getCtx s'.arena c).resume_value = VALUE.qnil ∧
      (getCtx s'.arena c).completed = 0 ∧
      (getCtx s'.arena c).result = 0 := by
  obtain ⟨s', c, e, -, hlast, htk, hnone, hsome, hid, hprev, hnext, hty, hfb,
    hrv, hcomp, hres, hpt, -⟩ := acquire_spec h ty fb
  exact ⟨s', c, e, hnone, hsome, hlast, hid, htk, hprev, hnext, hpt, hty, hfb,
    hrv, hcomp, hres⟩

/-- Witness for C1 at the Scenario-B store (active `[2, 0]`, free `[1]`). -/
theorem claim_C1_witness :
    WFl s4demo [2, 0] [1] ∧
    (∃ s' c, context_store_acquire s4demo OP_READ (VALUE.obj 9) = (s', c) ∧
      (s4demo.available = none →
        c = s4demo.arena.length ∧ s'.arena.length = s4demo.arena.length + 1) ∧
      (∀ c0, s4demo.available = some c0 → c = c0 ∧
        s'.arena.length = s4demo.arena.length ∧
        s'.available = (getCtx s4demo.arena c0).next ∧
        (∀ n, (getCtx s4demo.arena c0).next = some n →
          (getCtx s'.arena n).prev = none)) ∧
      s'.last_id = s4demo.last_id + 1 ∧
      (getCtx s'.arena c).id = s4demo.last_id + 1 ∧
      s'.taken = some c ∧
      (getCtx s'.arena c).prev = none ∧
      (getCtx s'.arena c).next = s4demo.taken ∧
      (∀ t, s4demo.taken = some t → (getCtx s'.arena t).prev = some c) ∧
      (getCtx s'.arena c).type = OP_READ ∧
      (getCtx s'.arena c).fiber = VALUE.obj 9 ∧
      (getCtx s'.arena c).resume_value = VALUE.qnil ∧
      (getCtx s'.arena c).completed = 0 ∧
      (getCtx s'.arena c).result = 0) :=
  ⟨by decide, claim_C1_acquire_algorithm (show WFl s4demo [2, 0] [1] by decide) OP_READ (VALUE.obj 9)⟩

/-- C2: after any valid sequence of acquire and release calls from a fresh
store (each release targeting a record on the active list), every live
record is on exactly one of the two lists, and both lists are duplicate-free
correctly doubly linked chains (`seg` with null back-link at the head and
null tail pointer). -/
theorem claim_C2_list_partition (ops : List Op) (hv : validOps initStore ops) :
    ∃ act fre,
      seg (run initStore ops).arena none (run initStore ops).taken act none ∧
      seg (run initStore ops).arena none (run initStore ops).available fre none ∧
      act.Nodup ∧ fre.Nodup ∧
      (∀ i, i < (run initStore ops).arena.length →
        ((i ∈ act ∧ i ∉ fre) ∨ (i ∈ fre ∧ i ∉ act))) ∧
      (∀ i, i ∈ act → i < (run initStore ops).arena.length) ∧
      (∀ i, i ∈ fre → i < (run initStore ops).arena.length) := by
  obtain ⟨⟨act, fre, hW, -, -⟩, -, -, -⟩ :=
    run_master ops initStore [] [] initStore_WFl initStore_sorted
      initStore_bounded hv
  obtain ⟨hA, hF, hN, hP⟩ := hW
  rcases List.nodup_append.mp hN with ⟨hNa, hNf, hdisj⟩
  refine ⟨act, fre, hA, hF, hNa, hNf, ?_, fun i hi => seg_mem_lt hA i hi,
    fun i hi => seg_mem_lt hF i hi⟩
  intro i hi
  rcases List.mem_append.mp (hP i hi) with hm | hm
  · exact Or.inl ⟨hm, fun hf => hdisj hm hf⟩
  · exact Or.inr ⟨hm, fun ha => hdisj ha hm⟩

/-- Witness for C2 on a concrete valid operation sequence. -/
theorem claim_C2_witness :
    validOps initStore [Op.acq OP_READ (VALUE.obj 1), Op.acq OP_WRITE (VALUE.obj 2),
      Op.rel 0, Op.acq OP_SEND (VALUE.obj 3), Op.rel 1] ∧
    (∃ act fre,
      seg (run initStore [Op.acq OP_READ (VALUE.obj 1), Op.acq OP_WRITE (VALUE.obj 2),
        Op.rel 0, Op.acq OP_SEND (VALUE.obj 3), Op.rel 1]).arena none
        (run initStore [Op.acq OP_READ (VALUE.obj 1), Op.acq OP_WRITE (VALUE.obj 2),
        Op.rel 0, Op.acq OP_SEND (VALUE.obj 3), Op.rel 1]).taken act none ∧
      seg (run initStore [Op.acq OP_READ (VALUE.obj 1), Op.acq OP_WRITE (VALUE.obj 2),
        Op.rel 0, Op.acq OP_SEND (VALUE.obj 3), Op.rel 1]).arena none
        (run initStore [Op.acq OP_READ (VALUE.obj 1), Op.acq OP_WRITE (VALUE.obj 2),
        Op.rel 0, Op.acq OP_SEND (VALUE.obj 3), Op.rel 1]).available fre none ∧
      act.Nodup ∧ fre.Nodup ∧
      (∀ i, i < (run initStore [Op.acq OP_READ (VALUE.obj 1), Op.acq OP_WRITE (VALUE.obj 2),
        Op.rel 0, Op.acq OP_SEND (VALUE.obj 3), Op.rel 1]).arena.length →
        ((i ∈ act ∧ i ∉ fre) ∨ (i ∈ fre ∧ i ∉ act))) ∧
      (∀ i, i ∈ act → i < (run initStore [Op.acq OP_READ (VALUE.obj 1),
        Op.acq OP_WRITE (VALUE.obj 2),
        Op.rel 0, Op.acq OP_SEND (VALUE.obj 3), Op.rel 1]).arena.length) ∧
      (∀ i, i ∈ fre → i < (run initStore [Op.acq OP_READ (VALUE.obj 1),
        Op.acq OP_WRITE (VALUE.obj 2),
        Op.rel 0, Op.acq OP_SEND (VALUE.obj 3), Op.rel 1]).arena.length)) :=
  ⟨by decide, claim_C2_list_partition _ (by decide)⟩

/-- C3: over any valid operation sequence on a store (from initialization),
the ids returned by the successive acquire calls are strictly increasing. -/
theorem claim_C3_ids_strictly_increasing (ops : List Op)
    (hv : validOps initStore ops) :
    List.Pairwise (fun x y => x < y) (runTrace initStore ops).2 :=
  (run_master ops initStore [] [] initStore_WFl initStore_sorted
    initStore_bounded hv).2.2.1

/-- Witness for C3 on a concrete valid operation sequence. -/
theorem claim_C3_witness :
    validOps initStore [Op.acq OP_READ (VALUE.obj 1), Op.acq OP_WRITE (VALUE.obj 2),
      Op.rel 1, Op.acq OP_SEND (VALUE.obj 3), Op.acq OP_RECV (VALUE.obj 4)] ∧
    List.Pairwise (fun x y => x < y)
      (runTrace initStore [Op.acq OP_READ (VALUE.obj 1), Op.acq OP_WRITE (VALUE.obj 2),
        Op.rel 1, Op.acq OP_SEND (VALUE.obj 3), Op.acq OP_RECV (VALUE.obj 4)]).2 :=
  ⟨by decide, claim_C3_ids_strictly_increasing _ (by decide)⟩

/-- C4: reuse is of storage, not identity. From a fresh store, three
acquires yield ids 1, 2, 3 (arena indices 0, 1, 2); after releasing the
id-2 record (index 1) the active list carries exactly ids `[3, 1]` and the
free list exactly the id-2 record; a further acquire returns the physically
identical record (index 1) but with the fresh id 4, not 2. -/
theorem claim_C4_reuse_storage_not_identity :
    idOf s3demo 0 = 1 ∧ idOf s3demo 1 = 2 ∧ idOf s3demo 2 = 3 ∧
    (activeChain s3demo).map (idOf s3demo) = [3, 2, 1] ∧
    activeChain s4demo = [2, 0] ∧
    (activeChain s4demo).map (idOf s4demo) = [3, 1] ∧
    freeChain s4demo = [1] ∧
    (freeChain s4demo).map (idOf s4demo) = [2] ∧
    (context_store_acquire s4demo OP_RECV (VALUE.obj 4)).2 = 1 ∧
    idOf (context_store_acquire s4demo OP_RECV (VALUE.obj 4)).1 1 = 4 := by
  decide

/-- C5: round trip. On a well-formed store, acquire, release of the returned
context, then acquire again leave the active-list and free-list sizes equal
to what a single acquire produces (equivalently, unchanged from before the
round trip, net of the single churned record). -/
theorem claim_C5_round_trip {s : Store} {act fre : List Nat}
    (h : WFl s act fre) (t1 t2 : Nat) (f1 f2 : VALUE) :
    (activeChain (context_store_acquire (context_store_release
        (context_store_acquire s t1 f1).1
        (context_store_acquire s t1 f1).2) t2 f2).1).length =
      (activeChain (context_store_acquire s t1 f1).1).length ∧
    (freeChain (context_store_acquire (context_store_release
        (context_store_acquire s t1 f1).1
        (context_store_acquire s t1 f1).2) t2 f2).1).length =
      (freeChain (context_store_acquire s t1 f1).1).length := by
  obtain ⟨s1, c1, e1, hWF1, -⟩ := acquire_spec h t1 f1
  have hWF2 : WFl (context_store_release s1 c1) ([] ++ act) (c1 :: fre.tail) :=
    release_spec hWF1 rfl
  have hWF2b : WFl (context_store_release s1 c1) act (c1 :: fre.tail) := by
    simpa using hWF2
  obtain ⟨s3, c3, e3, hWF3, -⟩ := acquire_spec hWF2b t2 f2
  rw [e1]
  have e3b : context_store_acquire (context_store_release s1 c1) t2 f2 =
      (s3, c3) := e3
  rw [show ((s1, c1) : Store × Nat).1 = s1 from rfl,
    show ((s1, c1) : Store × Nat).2 = c1 from rfl, e3b]
  rw [show ((s3, c3) : Store × Nat).1 = s3 from rfl]
  rw [WFl_activeChain hWF3, WFl_freeChain hWF3, WFl_activeChain hWF1,
    WFl_freeChain hWF1]
  exact ⟨by simp, by simp⟩

/-- Witness for C5 at the Scenario-B store. -/
theorem claim_C5_witness :
    WFl s4demo [2, 0] [1] ∧
    ((activeChain (context_store_acquire (context_store_release
        (context_store_acquire s4demo OP_READ (VALUE.obj 7)).1
        (context_store_acquire s4demo OP_READ (VALUE.obj 7)).2) OP_SEND
        (VALUE.obj 8)).1).length =
      (activeChain (context_store_acquire s4demo OP_READ (VALUE.obj 7)).1).length ∧
    (freeChain (context_store_acquire (context_store_release
        (context_store_acquire s4demo OP_READ (VALUE.obj 7)).1
        (context_store_acquire s4demo OP_READ (VALUE.obj 7)).2) OP_SEND
        (VALUE.obj 8)).1).length =
      (freeChain (context_store_acquire s4demo OP_READ (VALUE.obj 7)).1).length) :=
  ⟨by decide, claim_C5_round_trip (show WFl s4demo [2, 0] [1] by decide)
    OP_READ OP_SEND (VALUE.obj 7) (VALUE.obj 8)⟩

/-- C6: teardown completeness. On a well-formed store, `context_store_free`
walks both lists to their ends; afterwards both the free-list head and the
active-list head are null, so no record remains reachable from either. -/
theorem claim_C6_teardown_complete {s : Store} {act fre : List Nat}
    (h : WFl s act fre) :
    (context_store_free s).available = none ∧
    (context_store_free s).taken = none := by
  obtain ⟨hA, hF, hN, -⟩ := h
  rcases List.nodup_append.mp hN with ⟨hNa, hNf, -⟩
  constructor
  · show freeLoopHead s.arena s.arena.length s.available = none
    exact freeLoop_none hF (nodup_bounded_length hNf (seg_mem_lt hF))
  · show freeLoopHead s.arena s.arena.length s.taken = none
    exact freeLoop_none hA (nodup_bounded_length hNa (seg_mem_lt hA))

/-- Witness for C6 at the Scenario-B store. -/
theorem claim_C6_witness :
    WFl s4demo [2, 0] [1] ∧
    (context_store_free s4demo).available = none ∧
    (context_store_free s4demo).taken = none :=
  ⟨by decide, claim_C6_teardown_complete (show WFl s4demo [2, 0] [1] by decide)⟩

/-- C7: `context_store_initialize` resets `last_id` to 0 and both list heads
to null; in that freshly initialized state the first `acquire(OP_READ)`
returns a context with id 1, the active list then has exactly one entry and
the free list is empty. -/
theorem claim_C7_initialize_first_acquire (s : Store) (fb : VALUE) :
    ( context_store_initialize s).last_id = 0 ∧
    ( context_store_initialize s).available = none ∧
    ( context_store_initialize s).taken = none ∧
    idOf (context_store_acquire ( context_store_initialize s) OP_READ fb).1
      (context_store_acquire ( context_store_initialize s) OP_READ fb).2 = 1 ∧
    (activeChain
      (context_store_acquire ( context_store_initialize s) OP_READ fb).1).length
      = 1 ∧
    freeChain (context_store_acquire ( context_store_initialize s) OP_READ fb).1
      = [] := by
  set s0 : Store := context_store_initialize s with hs0
  have hava : s0.available = none := rfl
  have htk : s0.taken = none := rfl
  have hlast : s0.last_id = 0 := rfl
  set s1 : Store := { arena := s0.arena ++ [default], last_id := s0.last_id, available := none, taken := s0.taken } with hs1
  have e0 : context_store_acquire s0 OP_READ fb =
      acquireRest s1 s0.arena.length OP_READ fb := by
    simp only [context_store_acquire, hava]
  have hc : s0.arena.length < s1.arena.length := by simp [hs1]
  have hA1 : seg s1.arena none s1.taken [] none := by
    rw [seg_nil_iff]
    exact htk
  obtain ⟨s2, e, hlast2, hav2, htk2, hlen2, hrec, -, -, hsg⟩ :=
    acquireRest_spec hc (by simp) (by simp) hA1 OP_READ fb
  refine ⟨hlast, hava, htk, ?_, ?_, ?_⟩
  · rw [e0, e]
    show idOf s2 s0.arena.length = 1
    rw [idOf, hrec]
    show s1.last_id + 1 = 1
    rw [hs1]
    show s0.last_id + 1 = 1
    rw [hlast]
  · rw [e0, e]
    show (activeChain s2).length = 1
    have hchain : activeChain s2 = [s0.arena.length] := by
      rw [activeChain]
      have h9 : seg s2.arena none s2.taken [s0.arena.length] none := by
        rw [htk2]
        exact hsg
      refine chainList_of_seg h9 ?_
      rw [hlen2, hs1]
      simp
    rw [hchain]
    rfl
  · rw [e0, e]
    show freeChain s2 = []
    rw [freeChain, hav2]
    show chainList s2.arena s2.arena.length s1.available = []
    rw [hs1]
    exact chainList_none _ _

/-- C8: `op_type_to_str` is a pure total lookup: each of the nine operation
kinds maps to its tag and every other value maps to the empty string. -/
theorem claim_C8_kind_labels :
    op_type_to_str OP_READ = "READ" ∧ op_type_to_str OP_WRITEV = "WRITEV" ∧
    op_type_to_str OP_WRITE = "WRITE" ∧ op_type_to_str OP_RECV = "RECV" ∧
    op_type_to_str OP_SEND = "SEND" ∧ op_type_to_str OP_TIMEOUT = "TIMEOUT" ∧
    op_type_to_str OP_POLL = "POLL" ∧ op_type_to_str OP_ACCEPT = "ACCEPT" ∧
    op_type_to_str OP_CONNECT = "CONNECT" ∧
    ∀ t, t ≠ OP_READ → t ≠ OP_WRITEV → t ≠ OP_WRITE → t ≠ OP_RECV →
      t ≠ OP_SEND → t ≠ OP_TIMEOUT → t ≠ OP_POLL → t ≠ OP_ACCEPT →
      t ≠ OP_CONNECT → op_type_to_str t = "" := by
  refine ⟨rfl, rfl, rfl, rfl, rfl, rfl, rfl, rfl, rfl, ?_⟩
  intro t h1 h2 h3 h4 h5 h6 h7 h8 h9
  simp [op_type_to_str, h1, h2, h3, h4, h5, h6, h7, h8, h9]

/-- Witness for C8: an out-of-range kind value maps to the empty string. -/
theorem claim_C8_witness : op_type_to_str 42 = "" :=
  claim_C8_kind_labels.2.2.2.2.2.2.2.2.2 42 (by decide) (by decide) (by decide)
    (by decide) (by decide) (by decide) (by decide) (by decide) (by decide)

/-- C9: after any valid operation sequence from a fresh store, the active
list is sorted in strictly decreasing id order from its head (the most
recently acquired outstanding context is the head). -/
theorem claim_C9_active_list_decreasing_ids (ops : List Op)
    (hv : validOps initStore ops) :
    ((activeChain (run initStore ops)).map (idOf (run initStore ops))).Pairwise
      (fun x y => y < x) := by
  obtain ⟨⟨act, fre, hW, hsort, -⟩, -, -, -⟩ :=
    run_master ops initStore [] [] initStore_WFl initStore_sorted
      initStore_bounded hv
  show ((activeChain (runTrace initStore ops).1).map
    (idOf (runTrace initStore ops).1)).Pairwise (fun x y => y < x)
  rw [WFl_activeChain hW]
  exact hsort

/-- Witness for C9 on a concrete valid operation sequence. -/
theorem claim_C9_witness :
    validOps initStore [Op.acq OP_READ (VALUE.obj 1), Op.acq OP_WRITE (VALUE.obj 2),
      Op.rel 0, Op.acq OP_SEND (VALUE.obj 3)] ∧
    ((activeChain (run initStore [Op.acq OP_READ (VALUE.obj 1),
        Op.acq OP_WRITE (VALUE.obj 2), Op.rel 0, Op.acq OP_SEND (VALUE.obj 3)])).map
      (idOf (run initStore [Op.acq OP_READ (VALUE.obj 1),
        Op.acq OP_WRITE (VALUE.obj 2), Op.rel 0,
        Op.acq OP_SEND (VALUE.obj 3)]))).Pairwise (fun x y => y < x) :=
  ⟨by decide, claim_C9_active_list_decreasing_ids _ (by decide)⟩

/-- C10 counterexample: releasing the id-2 record (index 1) of the
three-record scenario store changes the `prev` link of record 0 — a field of
a record other than the released context — from `some 1` to `some 2`, so
release does not leave every field of every other record unchanged. -/
theorem claim_C10_counterexample :
    (0 : Nat) ≠ 1 ∧ (getCtx s3demo.arena 0).prev = some 1 ∧
    (getCtx (context_store_release s3demo 1).arena 0).prev = some 2 := by
  decide

/-- C10 (amended): release leaves `last_id`, the arena size and every
record's non-link payload (`id`, `type`, `fiber`, `resume_value`,
`completed`, `result`) unchanged; the only records whose link slots can
change are the released context itself, its former `next` and `prev`
neighbors, and the old free-list head — every other record is left entirely
unchanged. -/
theorem claim_C10_release_frame (s : Store) (c : Nat) :
    (context_store_release s c).last_id = s.last_id ∧
    (context_store_release s c).arena.length = s.arena.length ∧
    (∀ i, nonLink (getCtx (context_store_release s c).arena i) =
      nonLink (getCtx s.arena i)) ∧
    ∀ i, i ≠ c → (getCtx s.arena c).next ≠ some i →
      (getCtx s.arena c).prev ≠ some i → s.available ≠ some i →
      getCtx (context_store_release s c).arena i = getCtx s.arena i :=
  ⟨release_last_id s c, release_length s c, release_nonLink s c,
    fun i h1 h2 h3 h4 => release_untouched s c i h1 h2 h3 h4⟩

/-- Witness for the amended C10: in the four-record store, releasing index 2
leaves record 0 (not the context, not a neighbor, not the free head)
entirely unchanged. -/
theorem claim_C10_witness :
    ((0 : Nat) ≠ 2 ∧ (getCtx s5demo.arena 2).next ≠ some 0 ∧
      (getCtx s5demo.arena 2).prev ≠ some 0 ∧ s5demo.available ≠ some 0) ∧
    getCtx (context_store_release s5demo 2).arena 0 = getCtx s5demo.arena 0 :=
  ⟨by decide, (claim_C10_release_frame s5demo 2).2.2.2 0 (by decide)
    (by decide) (by decide) (by decide)⟩

end PolyphonyCtx
